import Mathlib

/-!
Shallow embedding of the debate orchestration and consensus-voting engine
(`voting.py`, `models/voting.py`, `personality.py`, `debate_app.py`,
`services/debate_manager.py`).

Python dictionaries are modelled as association lists that preserve
insertion order, Python floats used for the consensus threshold as exact
rationals, Python exceptions as `Except` values, and Python `max` /
`sorted` by functions mirroring their documented semantics (first maximum,
stable sort).
-/

namespace DebateEngine

/-- A single vote, as in `Vote` (`voting.py`). -/
structure VoteM where
  voter : String
  rankings : List String
  reasoning : String
  iteration : Int
deriving Repr, DecidableEq

/-- Lookup in a Python dict modelled as an insertion-ordered association
list: the value at the first matching key. -/
def dictLookup {α : Type} [DecidableEq α] {β : Type} : List (α × β) → α → Option β
  | [], _ => none
  | (k, v) :: rest, key => if k = key then some v else dictLookup rest key

/-- `d[k] += v` on a Python `defaultdict(int)`: update the existing entry in
place (keeping its position) or append a fresh entry at the end, which is
exactly the insertion-order behaviour of CPython dicts. -/
def dictAdd : List (String × Int) → String → Int → List (String × Int)
  | [], k, v => [(k, v)]
  | (k', v') :: rest, k, v =>
      if k' = k then (k', v' + v) :: rest else (k', v') :: dictAdd rest k v

/-- The score a participant holds in a score map (`0` when absent, which is
how downstream code treats missing participants). -/
def dictValue (d : List (String × Int)) (k : String) : Int :=
  (dictLookup d k).getD 0

/-- The state of `VotingSystem` (`voting.py`): configuration fields of
`VotingConfig`, the participant list and the accumulated `vote_history`. -/
structure VotingSystemM where
  point_threshold : ℚ
  scoring_system : List (Nat × Int)
  participants : List String
  vote_history : List (List VoteM)

/-- `VotingSystem._calculate_max_points`:
`len(self.participants) * self.config.scoring_system[1]`. A missing key 1
would raise `KeyError` in Python; the `getD 0` branch is unreachable for
validated configurations, whose key set always contains 1. -/
def max_possible_points (vs : VotingSystemM) : Int :=
  (vs.participants.length : Int) * (dictLookup vs.scoring_system 1).getD 0

/-- Inner loop of `calculate_scores`: `for rank, participant in
enumerate(vote.rankings, 1): if rank in scoring_system:
scores[participant] += scoring_system[rank]`. -/
def applyRanking (scoring : List (Nat × Int)) :
    List (String × Int) → Nat → List String → List (String × Int)
  | d, _, [] => d
  | d, rank, p :: ps =>
      match dictLookup scoring rank with
      | some pts => applyRanking scoring (dictAdd d p pts) (rank + 1) ps
      | none => applyRanking scoring d (rank + 1) ps

/-- `VotingSystem.calculate_scores`: accumulate rank points over all votes
into a fresh score dict. -/
def calculate_scores (scoring : List (Nat × Int)) (votes : List VoteM) :
    List (String × Int) :=
  votes.foldl (fun d v => applyRanking scoring d 1 v.rankings) []

/-- Python's `max(items, key=lambda x: x[1])` starting from current best
`cur`: the running best is replaced only on a strictly greater value, so
the first maximum in iteration order wins. -/
def pyMaxBy : List (String × Int) → (String × Int) → (String × Int)
  | [], cur => cur
  | x :: xs, cur => pyMaxBy xs (if cur.2 < x.2 then x else cur)

/-- The greatest score value occurring in `cur :: l`. -/
def maxSnd (cur : Int) (l : List (String × Int)) : Int :=
  l.foldl (fun m p => max m p.2) cur

/-- `VotingSystem.check_consensus`: `(consensus_reached, winner)`. The
threshold comparison `top_score >= max_possible_points * point_threshold`
is carried out over exact rationals. -/
def check_consensus (vs : VotingSystemM) (scores : List (String × Int)) :
    Bool × Option String :=
  match scores with
  | [] => (false, none)
  | s :: rest =>
      let top := pyMaxBy rest s
      let threshold_score : ℚ := (max_possible_points vs : ℚ) * vs.point_threshold
      let reached : Bool := threshold_score ≤ (top.2 : ℚ)
      (reached, if reached then some top.1 else none)

/-- Descending-score preorder used by `sorted(..., key=lambda x: x[1],
reverse=True)`. -/
def scoreGE (x y : String × Int) : Prop := y.2 ≤ x.2

instance : DecidableRel scoreGE := fun x y => Int.decLe y.2 x.2

instance : IsTotal (String × Int) scoreGE := ⟨fun a b => le_total b.2 a.2⟩

instance : IsTrans (String × Int) scoreGE := ⟨fun _ _ _ h1 h2 => le_trans h2 h1⟩

/-- Python's `sorted(scores.items(), key=lambda x: x[1], reverse=True)`:
a stable descending sort by score. Insertion sort with the reflexive
descending preorder is such a stable sort, and all stable sorts of a total
preorder agree. -/
def pySortDesc (l : List (String × Int)) : List (String × Int) :=
  l.insertionSort scoreGE

/-- The summary dict built by `VotingSystem.get_vote_summary`. -/
structure VoteSummary where
  iteration : Int
  scores : List (String × Int)
  sorted_rankings : List (String × Int)
  consensus_reached : Bool
  winner : Option String
  threshold_score : ℚ
  individual_votes : List VoteM

/-- Outcome of `get_vote_summary`: the empty dict `{}` (not available), a
populated summary, or a propagated `IndexError`. -/
inductive SummaryResult where
  | notAvailable
  | ok (s : VoteSummary)
  | indexError

/-- Python list subscription `l[i]`: non-negative indices from the front,
negative indices from the back, `IndexError` (`none`) outside `[-n, n)`. -/
def pyListGet {α : Type} (l : List α) (i : Int) : Option α :=
  if 0 ≤ i then l.get? i.toNat
  else if 0 ≤ i + l.length then l.get? (i + l.length).toNat
  else none

/-- `VotingSystem.get_vote_summary`: returns `{}` when
`iteration >= len(self.vote_history)`, otherwise builds the summary from
`self.vote_history[iteration]`. -/
def get_vote_summary (vs : VotingSystemM) (iteration : Int) : SummaryResult :=
  if (vs.vote_history.length : Int) ≤ iteration then .notAvailable
  else
    match pyListGet vs.vote_history iteration with
    | none => .indexError
    | some votes =>
        let scores := calculate_scores vs.scoring_system votes
        let cw := check_consensus vs scores
        .ok {
          iteration := iteration
          scores := scores
          sorted_rankings := pySortDesc scores
          consensus_reached := cw.1
          winner := cw.2
          threshold_score := (max_possible_points vs : ℚ) * vs.point_threshold
          individual_votes := votes
        }

/-- `LLMPersonality._should_update_belief` (`personality.py`):
`threshold = belief_persistence * 10; threshold -= truth_seeking * 5;
return evidence_strength >= threshold`. -/
def should_update_belief (belief_persistence truth_seeking evidence_strength : Int) :
    Bool :=
  let threshold := belief_persistence * 10 - truth_seeking * 5
  threshold ≤ evidence_strength

/-- `VotingConfig.validate_scoring_system` (`models/voting.py`): the table
is non-empty, its sorted key list is exactly `[1, ..., K]`, and every point
value is positive. -/
def validate_scoring_system (v : List (Nat × Int)) : Bool :=
  v ≠ [] &&
  ((v.map Prod.fst).insertionSort (· ≤ ·) = List.range' 1 v.length) &&
  v.all (fun p => 0 < p.2)

/-- Construction of the pydantic `VotingConfig` (`models/voting.py`)
succeeds iff every field and model validator passes: `point_threshold`
has `ge=0.0, le=1.0`, the scoring table passes
`validate_scoring_system`, `min_iterations` has `ge=1`, `max_iterations`
has `ge=1, le=50`, and `min_iterations <= max_iterations`. -/
def votingConfigAccepts (point_threshold : ℚ) (scoring_system : List (Nat × Int))
    (min_iterations max_iterations : Int) : Bool :=
  (0 ≤ point_threshold) && (point_threshold ≤ 1) &&
  validate_scoring_system scoring_system &&
  (1 ≤ min_iterations) && (1 ≤ max_iterations) && (max_iterations ≤ 50) &&
  (min_iterations ≤ max_iterations)

/-- Spec-side description of a well-formed scoring table: non-empty,
duplicate-free keys covering exactly `1..K`, positive point values. -/
def scoringTableWellFormed (v : List (Nat × Int)) : Prop :=
  v ≠ [] ∧ (v.map Prod.fst).Nodup ∧
  (∀ k, k ∈ v.map Prod.fst ↔ 1 ≤ k ∧ k ≤ v.length) ∧
  ∀ p ∈ v, 0 < p.2

/-- One iteration record of `DebateApp.run_voting_debate`: the iteration
index together with the `consensus_reached` flag frozen into
`iteration_data`. -/
structure IterationRecord where
  iteration : Nat
  consensus_reached : Bool
deriving Repr, DecidableEq

/-- The `while iteration < max_iterations and not consensus_reached` loop of
`DebateApp.run_voting_debate`, with the argument/vote generation abstracted
into `outcome i` — whether the consensus check of iteration `i` succeeds.
The consensus flag is re-evaluated only once `voting_start ≤ i`, exactly as
in the source (`if iteration >= self.config.voting_start_iteration`). The
fuel argument bounds the recursion and never runs out when it starts at
`max_iterations`. -/
def votingLoopAux (max_iterations voting_start : Nat) (outcome : Nat → Bool) :
    Nat → Nat → Bool → List IterationRecord → List IterationRecord
  | 0, _, _, recs => recs
  | fuel + 1, iteration, consensus_reached, recs =>
      if iteration < max_iterations ∧ consensus_reached = false then
        votingLoopAux max_iterations voting_start outcome fuel (iteration + 1)
          (if voting_start ≤ iteration then outcome iteration else consensus_reached)
          (recs ++ [⟨iteration,
            if voting_start ≤ iteration then outcome iteration else consensus_reached⟩])
      else recs

/-- The sequence of iteration records produced by one run of
`DebateApp.run_voting_debate`. -/
def run_voting_debate_records (max_iterations voting_start : Nat)
    (outcome : Nat → Bool) : List IterationRecord :=
  votingLoopAux max_iterations voting_start outcome max_iterations 0 false []

/-- What a `generate_vote` collaborator call produces: a parsed JSON dict
(with optional `rankings` and `reasoning` keys), or text that fails JSON
parsing. -/
inductive CollabVote where
  | parsed (rankings : Option (List String)) (reasoning : Option String)
  | unparseable

/-- `generate_vote` (`personality.py` / `personalities/*.py`): the parsed
dict is returned as-is; on `json.JSONDecodeError` the fallback
`{"rankings": participants, "reasoning": "Unable to parse vote"}` is
returned instead. -/
def generate_vote_result (participants : List String) :
    CollabVote → Option (List String) × Option String
  | .parsed rk rs => (rk, rs)
  | .unparseable => (some participants, some "Unable to parse vote")

/-- Python's `not participant or not participant.strip()`: true exactly when
every character is whitespace (the empty string included). -/
def isBlank (s : String) : Bool :=
  s.data.all (fun c => c.isWhitespace)

/-- Construction of the pydantic `Vote` (`models/voting.py`): field
validators (`min_length=1` on voter and reasoning, `ge=0` on iteration, the
`rankings` validator) and the `voter_in_rankings` model validator; any
failure raises, modelled as `Except.error`. -/
def mkVote (voter : String) (rankings : List String) (reasoning : String)
    (iteration : Int) : Except String VoteM :=
  if voter.length < 1 then .error "voter must have length at least 1"
  else if rankings = [] then .error "Rankings cannot be empty"
  else if rankings.dedup.length ≠ rankings.length then
    .error "Rankings cannot contain duplicates"
  else if rankings.any (fun p => isBlank p) then
    .error "Participant names cannot be empty"
  else if reasoning.length < 1 then .error "reasoning must have length at least 1"
  else if iteration < 0 then .error "iteration must be at least 0"
  else if voter ∉ rankings then
    .error "Voter must be included in their own rankings"
  else .ok ⟨voter, rankings, reasoning, iteration⟩

/-- `DebateApp.collect_votes` (`debate_app.py`): for each personality,
build a `Vote` from `vote_data.get("rankings", participant_names)` and
`vote_data.get("reasoning", "")`. There is no exception handler, so a
failing `Vote` construction propagates out of the round. -/
def app_collect_votes (participants : List String) (collab : String → CollabVote)
    (iteration : Int) : List String → Except String (List VoteM)
  | [] => .ok []
  | name :: rest =>
      match mkVote name
          ((generate_vote_result participants (collab name)).1.getD participants)
          ((generate_vote_result participants (collab name)).2.getD "") iteration with
      | .error e => .error e
      | .ok v =>
          match app_collect_votes participants collab iteration rest with
          | .error e => .error e
          | .ok vs => .ok (v :: vs)

/-- The fallback vote built in the `except` branch of
`DebateManager.collect_votes` (`services/debate_manager.py`). -/
def fallbackVote (name : String) (participants : List String) (iteration : Int) :
    Except String VoteM :=
  mkVote name participants "Error generating vote" iteration

/-- `DebateManager.collect_votes` (`services/debate_manager.py`): each
personality's vote is built inside `try`; on any exception a default vote
(`rankings = participant_names`, `reasoning = "Error generating vote"`) is
substituted. The substitute construction itself sits outside the `try`, so
its own failure would still propagate. -/
def manager_collect_votes (participants : List String) (collab : String → CollabVote)
    (iteration : Int) : List String → Except String (List VoteM)
  | [] => .ok []
  | name :: rest =>
      match (match mkVote name
          ((generate_vote_result participants (collab name)).1.getD participants)
          ((generate_vote_result participants (collab name)).2.getD
            "No reasoning provided") iteration with
        | .ok v => Except.ok v
        | .error _ => fallbackVote name participants iteration) with
      | .error e => .error e
      | .ok v =>
          match manager_collect_votes participants collab iteration rest with
          | .error e => .error e
          | .ok vs => .ok (v :: vs)

/-- The top score of a non-empty score map (`0` for the empty map, where
`check_consensus` never looks at it). -/
def topScore : List (String × Int) → Int
  | [] => 0
  | s :: rest => maxSnd s.2 rest

/-! ### Sample data (the default scoring table and a two-agent round) -/

def sampleScoring : List (Nat × Int) := [(1, 4), (2, 3), (3, 2), (4, 1)]

def sampleVoteA : VoteM := ⟨"A", ["B", "A"], "ranked B first", 0⟩

def sampleVoteB : VoteM := ⟨"B", ["A", "B"], "ranked A first", 0⟩

def sampleSystem : VotingSystemM :=
  ⟨3 / 4, sampleScoring, ["A", "B"], [[sampleVoteA, sampleVoteB]]⟩

/-- A collaborator whose vote for Alice parses but omits her from the
rankings, while Bob's vote is well-formed. -/
def ceCollab : String → CollabVote := fun n =>
  if n = "Alice" then CollabVote.parsed (some ["Bob"]) (some "reason")
  else CollabVote.parsed (some ["Bob", "Alice"]) (some "reason")

/-! ### Helper lemmas about the Python `max` model -/

theorem maxSnd_cons (cur : Int) (x : String × Int) (l : List (String × Int)) :
    maxSnd cur (x :: l) = maxSnd (max cur x.2) l := rfl

theorem le_maxSnd_self (cur : Int) (l : List (String × Int)) : cur ≤ maxSnd cur l := by
  induction l generalizing cur with
  | nil => exact le_refl _
  | cons x xs ih => exact le_trans (le_max_left _ _) (ih (max cur x.2))

theorem le_maxSnd_of_mem {x : String × Int} {l : List (String × Int)} (cur : Int)
    (hx : x ∈ l) : x.2 ≤ maxSnd cur l := by
  induction l generalizing cur with
  | nil => cases hx
  | cons y ys ih =>
      rcases List.mem_cons.mp hx with h | h
      · subst h
        exact le_trans (le_max_right cur x.2) (le_maxSnd_self _ _)
      · exact ih _ h

theorem pyMaxBy_snd (l : List (String × Int)) :
    ∀ cur, (pyMaxBy l cur).2 = maxSnd cur.2 l := by
  induction l with
  | nil => intro cur; rfl
  | cons x xs ih =>
      intro cur
      rw [pyMaxBy, maxSnd_cons]
      rw [ih]
      by_cases h : cur.2 < x.2
      · rw [if_pos h, max_eq_right (le_of_lt h)]
      · rw [if_neg h, max_eq_left (not_lt.mp h)]

theorem find?_pyMaxBy (l : List (String × Int)) :
    ∀ cur, (cur :: l).find? (fun p => decide (maxSnd cur.2 l ≤ p.2)) =
      some (pyMaxBy l cur) := by
  induction l with
  | nil =>
      intro cur
      have hp : (fun p : String × Int => decide (maxSnd cur.2 [] ≤ p.2)) cur = true :=
        decide_eq_true (le_refl _)
      rw [@List.find?_cons_of_pos _ _ cur [] hp, pyMaxBy]
  | cons x xs ih =>
      intro cur
      rw [maxSnd_cons, pyMaxBy]
      by_cases h : cur.2 < x.2
      · rw [if_pos h]
        have hmax : max cur.2 x.2 = x.2 := max_eq_right (le_of_lt h)
        rw [hmax]
        have hcurfail :
            ¬ ((fun p : String × Int => decide (maxSnd x.2 xs ≤ p.2)) cur = true) :=
          fun hT =>
            not_le.mpr h (le_trans (le_maxSnd_self x.2 xs) (of_decide_eq_true hT))
        rw [@List.find?_cons_of_neg _ _ cur (x :: xs) hcurfail]
        exact ih x
      · rw [if_neg h]
        have hmax : max cur.2 x.2 = cur.2 := max_eq_left (not_lt.mp h)
        rw [hmax]
        by_cases hc : maxSnd cur.2 xs ≤ cur.2
        · have hp : (fun p : String × Int => decide (maxSnd cur.2 xs ≤ p.2)) cur = true :=
            decide_eq_true hc
          rw [@List.find?_cons_of_pos _ _ cur (x :: xs) hp]
          have hfromih := ih cur
          rw [@List.find?_cons_of_pos _ _ cur xs hp] at hfromih
          exact hfromih
        · have hp :
              ¬ ((fun p : String × Int => decide (maxSnd cur.2 xs ≤ p.2)) cur = true) :=
            fun hT => hc (of_decide_eq_true hT)
          have hx :
              ¬ ((fun p : String × Int => decide (maxSnd cur.2 xs ≤ p.2)) x = true) :=
            fun hT => hc (le_trans (of_decide_eq_true hT) (not_lt.mp h))
          rw [@List.find?_cons_of_neg _ _ cur (x :: xs) hp,
            @List.find?_cons_of_neg _ _ x xs hx]
          have hfromih := ih cur
          rw [@List.find?_cons_of_neg _ _ cur xs hp] at hfromih
          exact hfromih

theorem pyMaxBy_mem (l : List (String × Int)) (cur : String × Int) :
    pyMaxBy l cur ∈ cur :: l :=
  List.mem_of_find?_eq_some (find?_pyMaxBy l cur)

theorem pyMaxBy_eq_firstMax (l : List (String × Int)) (cur : String × Int) :
    (cur :: l).find? (fun p => decide (topScore (cur :: l) ≤ p.2)) =
      some (pyMaxBy l cur) :=
  find?_pyMaxBy l cur

theorem topScore_is_greatest {q : String × Int} {scores : List (String × Int)}
    (hq : q ∈ scores) : q.2 ≤ topScore scores := by
  cases scores with
  | nil => cases hq
  | cons s rest =>
      rcases List.mem_cons.mp hq with h | h
      · subst h; exact le_maxSnd_self _ _
      · exact le_maxSnd_of_mem _ h

theorem topScore_attained (s : String × Int) (rest : List (String × Int)) :
    ∃ q ∈ s :: rest, q.2 = topScore (s :: rest) := by
  refine ⟨pyMaxBy rest s, pyMaxBy_mem rest s, ?_⟩
  exact pyMaxBy_snd rest s

theorem check_consensus_cons (vs : VotingSystemM) (s : String × Int)
    (rest : List (String × Int)) :
    check_consensus vs (s :: rest) =
      (decide ((max_possible_points vs : ℚ) * vs.point_threshold ≤
          (topScore (s :: rest) : ℚ)),
        if (max_possible_points vs : ℚ) * vs.point_threshold ≤
            (topScore (s :: rest) : ℚ)
          then some (pyMaxBy rest s).1 else none) := by
  have hsnd : ((pyMaxBy rest s).2 : ℚ) = (topScore (s :: rest) : ℚ) := by
    rw [pyMaxBy_snd]; rfl
  simp only [check_consensus, hsnd]
  rcases em ((max_possible_points vs : ℚ) * vs.point_threshold ≤
      (topScore (s :: rest) : ℚ)) with hle | hle
  · rw [decide_eq_true hle, if_pos rfl, if_pos hle]
  · rw [decide_eq_false hle, if_neg hle]
    rw [if_neg (fun h : (false : Bool) = true => Bool.noConfusion h)]

theorem find?_congr_on {α : Type} {p q : α → Bool} :
    ∀ l : List α, (∀ x ∈ l, p x = q x) → l.find? p = l.find? q := by
  intro l
  induction l with
  | nil => intro _; rfl
  | cons x xs ih =>
      intro h
      by_cases hx : p x = true
      · rw [@List.find?_cons_of_pos _ _ x xs hx,
          @List.find?_cons_of_pos _ _ x xs (by rw [← h x (List.mem_cons_self x xs)]; exact hx)]
      · rw [@List.find?_cons_of_neg _ _ x xs hx,
          @List.find?_cons_of_neg _ _ x xs (by rw [← h x (List.mem_cons_self x xs)]; exact hx),
          ih (fun y hy => h y (List.mem_cons_of_mem x hy))]

/-! ### Claims -/

/-- C1: for a voting system over participants `P` and a scoring table whose
rank-1 value is `p1`, the maximum theoretical score is `len(P) * p1`; for
every non-empty score map, `check_consensus` reports consensus exactly when
the map's maximum value is at least `point_threshold` times that maximum
(equality counts, the comparison being `>=`); on consensus the winner is an
agent holding that maximum value, and without consensus the winner is
`none`. -/
theorem consensus_iff_top_score_meets_threshold (vs : VotingSystemM) (p1 : Int)
    (hp1 : dictLookup vs.scoring_system 1 = some p1)
    (scores : List (String × Int)) (hne : scores ≠ []) :
    max_possible_points vs = (vs.participants.length : Int) * p1 ∧
    (∀ q ∈ scores, q.2 ≤ topScore scores) ∧
    ((check_consensus vs scores).1 = true ↔
      vs.point_threshold * (((vs.participants.length : Int) * p1 : Int) : ℚ) ≤
        (topScore scores : ℚ)) ∧
    ((check_consensus vs scores).1 = true →
      ∃ w, (check_consensus vs scores).2 = some w ∧ (w, topScore scores) ∈ scores) ∧
    ((check_consensus vs scores).1 = false → (check_consensus vs scores).2 = none) := by
  have hmax : max_possible_points vs = (vs.participants.length : Int) * p1 := by
    rw [max_possible_points, hp1]; rfl
  refine ⟨hmax, fun q hq => topScore_is_greatest hq, ?_, ?_, ?_⟩
  · cases scores with
    | nil => exact absurd rfl hne
    | cons s rest =>
        rw [check_consensus_cons]
        simp only [decide_eq_true_eq]
        rw [hmax, mul_comm]
  · cases scores with
    | nil => exact absurd rfl hne
    | cons s rest =>
        rw [check_consensus_cons]
        simp only [decide_eq_true_eq]
        intro hle
        refine ⟨(pyMaxBy rest s).1, by rw [if_pos hle], ?_⟩
        have : ((pyMaxBy rest s).1, topScore (s :: rest)) = pyMaxBy rest s := by
          have hsnd := pyMaxBy_snd rest s
          rw [show topScore (s :: rest) = maxSnd s.2 rest from rfl, ← hsnd]
        rw [this]
        exact pyMaxBy_mem rest s
  · cases scores with
    | nil => intro _; rfl
    | cons s rest =>
        rw [check_consensus_cons]
        intro hfalse
        have hle : ¬ (max_possible_points vs : ℚ) * vs.point_threshold ≤
            (topScore (s :: rest) : ℚ) := by
          intro h
          rw [decide_eq_true h] at hfalse
          exact Bool.noConfusion hfalse
        rw [if_neg hle]

/-- Concrete instance of C1: the default two-agent system, with scores
where `A` holds 7 of the 8 theoretical points. -/
theorem consensus_iff_top_score_meets_threshold_witness :
    dictLookup sampleSystem.scoring_system 1 = some 4 ∧
    ([("A", 7), ("B", 3)] : List (String × Int)) ≠ [] ∧
    (max_possible_points sampleSystem = (sampleSystem.participants.length : Int) * 4 ∧
    (∀ q ∈ ([("A", 7), ("B", 3)] : List (String × Int)),
      q.2 ≤ topScore [("A", 7), ("B", 3)]) ∧
    ((check_consensus sampleSystem [("A", 7), ("B", 3)]).1 = true ↔
      sampleSystem.point_threshold *
          (((sampleSystem.participants.length : Int) * 4 : Int) : ℚ) ≤
        (topScore [("A", 7), ("B", 3)] : ℚ)) ∧
    ((check_consensus sampleSystem [("A", 7), ("B", 3)]).1 = true →
      ∃ w, (check_consensus sampleSystem [("A", 7), ("B", 3)]).2 = some w ∧
        (w, topScore [("A", 7), ("B", 3)]) ∈ ([("A", 7), ("B", 3)] : List (String × Int))) ∧
    ((check_consensus sampleSystem [("A", 7), ("B", 3)]).1 = false →
      (check_consensus sampleSystem [("A", 7), ("B", 3)]).2 = none)) :=
  ⟨rfl, fun h => List.noConfusion h,
    consensus_iff_top_score_meets_threshold sampleSystem 4 rfl
      [("A", 7), ("B", 3)] (fun h => List.noConfusion h)⟩

/-- C2: the belief-update decision accepts exactly when the evidence
strength reaches `belief_persistence * 10 - truth_seeking * 5`, with
equality accepting; the 9/6 configuration has threshold 60, accepting 60
and rejecting 59. -/
theorem belief_update_threshold :
    (∀ bp ts ev : Int, should_update_belief bp ts ev = true ↔ bp * 10 - ts * 5 ≤ ev) ∧
    (9 * 10 - 6 * 5 : Int) = 60 ∧
    should_update_belief 9 6 60 = true ∧
    should_update_belief 9 6 59 = false := by
  refine ⟨fun bp ts ev => ?_, by decide, by decide, by decide⟩
  simp [should_update_belief]

/-- C5: when two or more agents tie for the top score and that score meets
the consensus threshold, `check_consensus` returns exactly one winner: the
first entry of the score map (in its iteration order) holding the maximum
value. As a pure function of the score map it is deterministic: equal
inputs give the same winner. -/
theorem tie_break_first_maximum (vs : VotingSystemM) (scores : List (String × Int))
    (a b : String × Int) (ha : a ∈ scores) (hb : b ∈ scores) (_hab : a ≠ b)
    (hta : a.2 = topScore scores) (htb : b.2 = topScore scores)
    (hthr : (max_possible_points vs : ℚ) * vs.point_threshold ≤ (topScore scores : ℚ)) :
    (check_consensus vs scores).1 = true ∧
    ∃ w, (check_consensus vs scores).2 = some w ∧
      scores.find? (fun q => decide (q.2 = topScore scores)) =
        some (w, topScore scores) := by
  cases scores with
  | nil => cases ha
  | cons s rest =>
      rw [check_consensus_cons]
      refine ⟨decide_eq_true hthr, (pyMaxBy rest s).1, ?_, ?_⟩
      · rw [if_pos hthr]
      · have hcongr : (s :: rest).find? (fun q => decide (q.2 = topScore (s :: rest))) =
            (s :: rest).find? (fun q => decide (topScore (s :: rest) ≤ q.2)) := by
          refine find?_congr_on (s :: rest) (fun x hx => ?_)
          rcases em (x.2 = topScore (s :: rest)) with h | h
          · rw [decide_eq_true h, decide_eq_true (le_of_eq h.symm)]
          · rw [decide_eq_false h,
              decide_eq_false (fun hle : topScore (s :: rest) ≤ x.2 =>
                h (le_antisymm (topScore_is_greatest hx) hle))]
        rw [hcongr, pyMaxBy_eq_firstMax]
        have : ((pyMaxBy rest s).1, topScore (s :: rest)) = pyMaxBy rest s := by
          have hsnd := pyMaxBy_snd rest s
          rw [show topScore (s :: rest) = maxSnd s.2 rest from rfl, ← hsnd]
        rw [this]

/-- Concrete instance of C5: the tied round of the sample system — both
agents hold 7 points, the threshold is 6, and the winner is the first
maximum of the score map, `B`. -/
theorem tie_break_first_maximum_witness :
    (("B", 7) : String × Int) ∈ ([("B", 7), ("A", 7)] : List (String × Int)) ∧
    (("A", 7) : String × Int) ∈ ([("B", 7), ("A", 7)] : List (String × Int)) ∧
    (("B", 7) : String × Int) ≠ ("A", 7) ∧
    (max_possible_points sampleSystem : ℚ) * sampleSystem.point_threshold ≤
      (topScore [("B", 7), ("A", 7)] : ℚ) ∧
    ((check_consensus sampleSystem [("B", 7), ("A", 7)]).1 = true ∧
    ∃ w, (check_consensus sampleSystem [("B", 7), ("A", 7)]).2 = some w ∧
      ([("B", 7), ("A", 7)] : List (String × Int)).find?
          (fun q => decide (q.2 = topScore [("B", 7), ("A", 7)])) =
        some (w, topScore [("B", 7), ("A", 7)])) :=
  ⟨List.mem_cons_self _ _, List.mem_cons_of_mem _ (List.mem_cons_self _ _),
    by decide,
    by norm_num [max_possible_points, sampleSystem, sampleScoring, dictLookup,
      topScore, maxSnd],
    tie_break_first_maximum sampleSystem [("B", 7), ("A", 7)] ("B", 7) ("A", 7)
      (List.mem_cons_self _ _) (List.mem_cons_of_mem _ (List.mem_cons_self _ _))
      (by decide) (by decide) (by decide)
      (by norm_num [max_possible_points, sampleSystem, sampleScoring, dictLookup,
        topScore, maxSnd])⟩

/-! ### Helper lemmas about score accumulation -/

theorem dictValue_cons (a : String) (b : Int) (t : List (String × Int)) (p : String) :
    dictValue ((a, b) :: t) p = if a = p then b else dictValue t p := by
  rw [dictValue, dictLookup]
  by_cases h : a = p
  · rw [if_pos h, if_pos h]; rfl
  · rw [if_neg h, if_neg h]; rfl

theorem dictValue_dictAdd (d : List (String × Int)) (k : String) (v : Int) (p : String) :
    dictValue (dictAdd d k v) p = if k = p then dictValue d p + v else dictValue d p := by
  induction d with
  | nil =>
      rw [dictAdd, dictValue_cons]
      by_cases h : k = p
      · rw [if_pos h, if_pos h]
        show v = dictValue [] p + v
        rw [show dictValue [] p = 0 from rfl, zero_add]
      · rw [if_neg h, if_neg h]
  | cons q t ih =>
      obtain ⟨k', v'⟩ := q
      rw [dictAdd]
      by_cases hk : k' = k
      · rw [if_pos hk, dictValue_cons, dictValue_cons]
        by_cases hp : k' = p
        · rw [if_pos hp, if_pos hp, if_pos (hk ▸ hp)]
        · rw [if_neg hp, if_neg hp]
          have : ¬ k = p := fun h => hp (hk.symm ▸ h)
          rw [if_neg this]
      · rw [if_neg hk, dictValue_cons, dictValue_cons, ih]
        by_cases hp : k' = p
        · have : ¬ k = p := fun h => hk (by rw [hp, h])
          rw [if_pos hp, if_pos hp, if_neg this]
        · rw [if_neg hp, if_neg hp]

theorem applyRanking_not_mem (scoring : List (Nat × Int)) (p : String) :
    ∀ (ranks : List String) (rank : Nat) (d : List (String × Int)), p ∉ ranks →
      dictValue (applyRanking scoring d rank ranks) p = dictValue d p := by
  intro ranks
  induction ranks with
  | nil => intro rank d _; rfl
  | cons q qs ih =>
      intro rank d hp
      have hq : q ≠ p := fun h => hp (h ▸ List.mem_cons_self q qs)
      have hqs : p ∉ qs := fun h => hp (List.mem_cons_of_mem q h)
      rw [applyRanking]
      cases dictLookup scoring rank with
      | none => exact ih (rank + 1) d hqs
      | some pts =>
          rw [ih (rank + 1) _ hqs, dictValue_dictAdd, if_neg hq]

theorem applyRanking_le (scoring : List (Nat × Int)) (p1 : Int)
    (hmax : ∀ q ∈ scoring, q.2 ≤ p1) (h0 : 0 ≤ p1) (p : String) :
    ∀ (ranks : List String) (rank : Nat) (d : List (String × Int)), ranks.Nodup →
      dictValue (applyRanking scoring d rank ranks) p ≤ dictValue d p + p1 := by
  intro ranks
  induction ranks with
  | nil =>
      intro rank d _
      exact le_add_of_nonneg_right h0
  | cons q qs ih =>
      intro rank d hnd
      have hnd' : qs.Nodup := (List.nodup_cons.mp hnd).2
      rw [applyRanking]
      cases hlk : dictLookup scoring rank with
      | none => exact ih (rank + 1) d hnd'
      | some pts =>
          have hpts : pts ≤ p1 := by
            have hmem : (rank, pts) ∈ scoring := by
              clear hnd hnd' ih hmax
              induction scoring with
              | nil => exact absurd hlk (by rw [dictLookup]; exact Option.noConfusion)
              | cons e es ihs =>
                  obtain ⟨ek, ev⟩ := e
                  rw [dictLookup] at hlk
                  by_cases he : ek = rank
                  · rw [if_pos he] at hlk
                    have : ev = pts := Option.some.inj hlk
                    exact he ▸ this ▸ List.mem_cons_self _ _
                  · rw [if_neg he] at hlk
                    exact List.mem_cons_of_mem _ (ihs hlk)
            exact hmax (rank, pts) hmem
          by_cases hq : q = p
          · have hnotin : p ∉ qs := fun hmem =>
              (List.nodup_cons.mp hnd).1 (hq.symm ▸ hmem)
            rw [applyRanking_not_mem scoring p qs (rank + 1) _ hnotin,
              dictValue_dictAdd, if_pos hq]
            exact add_le_add_left hpts _
          · have := ih (rank + 1) (dictAdd d q pts) hnd'
            rw [dictValue_dictAdd, if_neg hq] at this
            exact this

theorem calculate_scores_foldl_le (scoring : List (Nat × Int)) (p1 : Int)
    (hmax : ∀ q ∈ scoring, q.2 ≤ p1) (h0 : 0 ≤ p1) (p : String) :
    ∀ (votes : List VoteM) (d : List (String × Int)),
      (∀ v ∈ votes, v.rankings.Nodup) →
      dictValue (votes.foldl (fun d v => applyRanking scoring d 1 v.rankings) d) p ≤
        dictValue d p + p1 * votes.length := by
  intro votes
  induction votes with
  | nil =>
      intro d _
      simp
  | cons v vsl ih =>
      intro d hnd
      rw [List.foldl_cons]
      have h1 := ih (applyRanking scoring d 1 v.rankings)
        (fun w hw => hnd w (List.mem_cons_of_mem v hw))
      have h2 := applyRanking_le scoring p1 hmax h0 p v.rankings 1 d
        (hnd v (List.mem_cons_self v vsl))
      calc dictValue (vsl.foldl (fun d v => applyRanking scoring d 1 v.rankings)
            (applyRanking scoring d 1 v.rankings)) p
          ≤ dictValue (applyRanking scoring d 1 v.rankings) p + p1 * vsl.length := h1
        _ ≤ (dictValue d p + p1) + p1 * vsl.length := add_le_add_right h2 _
        _ = dictValue d p + p1 * (vsl.length + 1) := by ring
        _ = dictValue d p + p1 * (v :: vsl).length := by
              rw [List.length_cons]
              push_cast
              ring

/-- C3 (amended): with duplicate-free rankings (enforced by
`Vote.validate_rankings`), one round awards any single participant at most
`M × number_of_votes` points, where `M` is any upper bound on the
configured point values — in particular the table's maximum value. The
bound `scoring_system[1] × number_of_votes` claimed by the spec holds
exactly when the rank-1 value is such an upper bound (true of the default
non-increasing table, but not forced by the validator). -/
theorem score_total_bounded_by_max_point_value (scoring : List (Nat × Int))
    (p1 : Int) (hmax : ∀ q ∈ scoring, q.2 ≤ p1) (h0 : 0 ≤ p1)
    (votes : List VoteM) (hnd : ∀ v ∈ votes, v.rankings.Nodup) (p : String) :
    dictValue (calculate_scores scoring votes) p ≤ p1 * votes.length := by
  have h := calculate_scores_foldl_le scoring p1 hmax h0 p votes [] hnd
  rw [calculate_scores]
  calc dictValue (votes.foldl (fun d v => applyRanking scoring d 1 v.rankings) []) p
      ≤ dictValue [] p + p1 * votes.length := h
    _ = p1 * votes.length := by rw [show dictValue [] p = 0 from rfl, zero_add]

/-- Concrete instance of the amended C3: the default table, whose rank-1
value 4 bounds every entry, over the sample two-vote round. -/
theorem score_total_bounded_by_max_point_value_witness :
    (∀ q ∈ sampleScoring, q.2 ≤ 4) ∧ (0 : Int) ≤ 4 ∧
    (∀ v ∈ [sampleVoteA, sampleVoteB], v.rankings.Nodup) ∧
    dictValue (calculate_scores sampleScoring [sampleVoteA, sampleVoteB]) "A" ≤
      4 * ([sampleVoteA, sampleVoteB] : List VoteM).length :=
  ⟨by decide, by decide, by decide,
    score_total_bounded_by_max_point_value sampleScoring 4 (by decide) (by decide)
      [sampleVoteA, sampleVoteB] (by decide) "A"⟩

/-- Counterexample to C3 as stated: the ascending table `{1: 1, 2: 5}`
passes `validate_scoring_system`, yet a single valid vote (duplicate-free,
voter included) awards participant `A` 5 points, exceeding the claimed
bound `scoring_system[1] × number_of_votes = 1 × 1`. -/
theorem rank1_bound_fails_for_ascending_table :
    validate_scoring_system [(1, 1), (2, 5)] = true ∧
    dictLookup [(1, 1), (2, 5)] 1 = some 1 ∧
    (⟨"A", ["B", "A"], "reasoning", 0⟩ : VoteM).rankings.Nodup ∧
    "A" ∈ (⟨"A", ["B", "A"], "reasoning", 0⟩ : VoteM).rankings ∧
    dictValue (calculate_scores [(1, 1), (2, 5)]
      [⟨"A", ["B", "A"], "reasoning", 0⟩]) "A" = 5 ∧
    ¬ (dictValue (calculate_scores [(1, 1), (2, 5)]
        [⟨"A", ["B", "A"], "reasoning", 0⟩]) "A" ≤
      1 * ([(⟨"A", ["B", "A"], "reasoning", 0⟩ : VoteM)] : List VoteM).length) := by
  refine ⟨?_, by decide, by decide, by decide, by decide, by decide⟩
  decide

/-! ### Helper lemmas about the voting loop -/

theorem votingLoopAux_length (m vsr : Nat) (o : Nat → Bool) :
    ∀ (fuel iter : Nat) (cons : Bool) (recs : List IterationRecord),
      (votingLoopAux m vsr o fuel iter cons recs).length ≤ recs.length + fuel := by
  intro fuel
  induction fuel with
  | zero =>
      intro iter cons recs
      rw [votingLoopAux]
      omega
  | succ f ih =>
      intro iter cons recs
      rw [votingLoopAux]
      by_cases h : iter < m ∧ cons = false
      · rw [if_pos h]
        have := ih (iter + 1) (if vsr ≤ iter then o iter else cons)
          (recs ++ [⟨iter, if vsr ≤ iter then o iter else cons⟩])
        rw [List.length_append, List.length_singleton] at this
        omega
      · rw [if_neg h]
        omega

theorem votingLoopAux_consensus_last (m vsr : Nat) (o : Nat → Bool) :
    ∀ (fuel iter : Nat) (cons : Bool) (recs : List IterationRecord),
      (cons = false → ∀ r ∈ recs, r.consensus_reached = false) →
      (∀ j r, recs.get? j = some r → r.consensus_reached = true → j + 1 = recs.length) →
      ∀ j r, (votingLoopAux m vsr o fuel iter cons recs).get? j = some r →
        r.consensus_reached = true →
        j + 1 = (votingLoopAux m vsr o fuel iter cons recs).length := by
  intro fuel
  induction fuel with
  | zero =>
      intro iter cons recs _ h2
      rw [votingLoopAux]
      exact h2
  | succ f ih =>
      intro iter cons recs h1 h2
      rw [votingLoopAux]
      by_cases h : iter < m ∧ cons = false
      · rw [if_pos h]
        obtain ⟨hlt, hcons⟩ := h
        subst hcons
        apply ih
        · intro hc r hr
          rcases List.mem_append.mp hr with hr | hr
          · exact h1 rfl r hr
          · rw [List.mem_singleton.mp hr]
            exact hc
        · intro j r hj hr
          rw [List.length_append, List.length_singleton]
          rcases Nat.lt_trichotomy j recs.length with hlt' | heq | hgt
          · rw [List.get?_append hlt'] at hj
            have hfalse := h1 rfl r (List.get?_mem hj)
            rw [hfalse] at hr
            exact absurd hr Bool.noConfusion
          · rw [heq]
          · have : (recs ++ [(⟨iter, if vsr ≤ iter then o iter else false⟩ :
                IterationRecord)]).get? j = none := by
              rw [List.get?_eq_none, List.length_append, List.length_singleton]
              omega
            rw [this] at hj
            exact absurd hj Option.noConfusion
      · rw [if_neg h]
        exact h2

/-- C4: the voting-mode loop runs a new round only while fewer than
`max_iterations` rounds have completed and consensus has not been reached,
so at most `max_iterations` iteration records are produced; an iteration
record whose consensus flag is set is the final record — no round begins
after the winner's round. -/
theorem voting_debate_rounds_bounded_and_stop_on_consensus
    (max_iterations voting_start : Nat) (outcome : Nat → Bool) :
    (run_voting_debate_records max_iterations voting_start outcome).length ≤
      max_iterations ∧
    ∀ j r, (run_voting_debate_records max_iterations voting_start outcome).get? j =
        some r → r.consensus_reached = true →
      j + 1 = (run_voting_debate_records max_iterations voting_start outcome).length := by
  constructor
  · have := votingLoopAux_length max_iterations voting_start outcome
      max_iterations 0 false []
    rw [List.length_nil] at this
    rw [run_voting_debate_records]
    omega
  · exact votingLoopAux_consensus_last max_iterations voting_start outcome
      max_iterations 0 false []
      (fun _ r hr => absurd hr (List.not_mem_nil r))
      (fun j r hj => absurd hj (by simp))

/-- Concrete instance of C4: ten allowed iterations, voting from iteration
2, consensus reached at iteration 3 — four records, the last one carrying
the consensus flag. -/
theorem voting_debate_rounds_bounded_and_stop_on_consensus_witness :
    (run_voting_debate_records 10 2 (fun i => i == 3)).length ≤ 10 ∧
    ((run_voting_debate_records 10 2 (fun i => i == 3)).get? 3 =
        some ⟨3, true⟩ ∧
      3 + 1 = (run_voting_debate_records 10 2 (fun i => i == 3)).length) :=
  ⟨(voting_debate_rounds_bounded_and_stop_on_consensus 10 2 (fun i => i == 3)).1,
    by decide,
    (voting_debate_rounds_bounded_and_stop_on_consensus 10 2 (fun i => i == 3)).2
      3 ⟨3, true⟩ (by decide) (by decide)⟩

/-- C7: querying `get_vote_summary` at an index at or beyond the number of
recorded rounds yields the explicit not-available result (the empty dict),
while an in-range non-negative index yields the populated summary built
from that round's votes. -/
theorem vote_summary_available_iff_recorded (vs : VotingSystemM) (i : Int) :
    ((vs.vote_history.length : Int) ≤ i → get_vote_summary vs i = .notAvailable) ∧
    (0 ≤ i → i < (vs.vote_history.length : Int) →
      ∃ votes, vs.vote_history.get? i.toNat = some votes ∧
        get_vote_summary vs i = .ok {
          iteration := i
          scores := calculate_scores vs.scoring_system votes
          sorted_rankings := pySortDesc (calculate_scores vs.scoring_system votes)
          consensus_reached :=
            (check_consensus vs (calculate_scores vs.scoring_system votes)).1
          winner := (check_consensus vs (calculate_scores vs.scoring_system votes)).2
          threshold_score := (max_possible_points vs : ℚ) * vs.point_threshold
          individual_votes := votes }) := by
  constructor
  · intro h
    rw [get_vote_summary, if_pos h]
  · intro h0 hlt
    have hn : i.toNat < vs.vote_history.length := by omega
    have hget : vs.vote_history.get? i.toNat =
        some (vs.vote_history.get ⟨i.toNat, hn⟩) :=
      List.get?_eq_some.mpr ⟨hn, rfl⟩
    have hplg : pyListGet vs.vote_history i =
        some (vs.vote_history.get ⟨i.toNat, hn⟩) := by
      rw [pyListGet, if_pos h0]
      exact hget
    refine ⟨_, hget, ?_⟩
    rw [get_vote_summary, if_neg (not_le.mpr hlt), hplg]

/-- Concrete instance of C7: the sample system has one recorded round;
index 1 is not available, index 0 is populated. -/
theorem vote_summary_available_iff_recorded_witness :
    get_vote_summary sampleSystem 1 = .notAvailable ∧
    ∃ votes, sampleSystem.vote_history.get? (0 : Int).toNat = some votes ∧
      get_vote_summary sampleSystem 0 = .ok {
        iteration := (0 : Int)
        scores := calculate_scores sampleSystem.scoring_system votes
        sorted_rankings := pySortDesc (calculate_scores sampleSystem.scoring_system votes)
        consensus_reached :=
          (check_consensus sampleSystem
            (calculate_scores sampleSystem.scoring_system votes)).1
        winner := (check_consensus sampleSystem
          (calculate_scores sampleSystem.scoring_system votes)).2
        threshold_score := (max_possible_points sampleSystem : ℚ) *
          sampleSystem.point_threshold
        individual_votes := votes } :=
  ⟨(vote_summary_available_iff_recorded sampleSystem 1).1 (by decide),
    (vote_summary_available_iff_recorded sampleSystem 0).2 (by decide) (by decide)⟩

/-- C10: a negative index `i` with `-n ≤ i < 0` slips past the
upper-bound-only availability guard and returns the populated summary of
round `n + i` (Python negative indexing), so `-1` summarises the most
recent round. -/
theorem vote_summary_negative_index_wraps (vs : VotingSystemM) (i : Int)
    (hn : 1 ≤ vs.vote_history.length)
    (h1 : -(vs.vote_history.length : Int) ≤ i) (h2 : i < 0) :
    ∃ votes, vs.vote_history.get? (i + vs.vote_history.length).toNat = some votes ∧
      get_vote_summary vs i = .ok {
        iteration := i
        scores := calculate_scores vs.scoring_system votes
        sorted_rankings := pySortDesc (calculate_scores vs.scoring_system votes)
        consensus_reached :=
          (check_consensus vs (calculate_scores vs.scoring_system votes)).1
        winner := (check_consensus vs (calculate_scores vs.scoring_system votes)).2
        threshold_score := (max_possible_points vs : ℚ) * vs.point_threshold
        individual_votes := votes } := by
  have hn' : (i + vs.vote_history.length).toNat < vs.vote_history.length := by omega
  have hget : vs.vote_history.get? (i + vs.vote_history.length).toNat =
      some (vs.vote_history.get ⟨(i + vs.vote_history.length).toNat, hn'⟩) :=
    List.get?_eq_some.mpr ⟨hn', rfl⟩
  refine ⟨_, hget, ?_⟩
  have hplg : pyListGet vs.vote_history i =
      some (vs.vote_history.get ⟨(i + vs.vote_history.length).toNat, hn'⟩) := by
    rw [pyListGet, if_neg (not_le.mpr h2), if_pos (by omega : (0 : Int) ≤ i + _)]
    exact hget
  have hub : ¬ (vs.vote_history.length : Int) ≤ i := by omega
  rw [get_vote_summary, if_neg hub, hplg]

/-- Concrete instance of C10: index `-1` on the one-round sample system
returns round 0's populated summary. -/
theorem vote_summary_negative_index_wraps_witness :
    ∃ votes, sampleSystem.vote_history.get?
        ((-1 : Int) + sampleSystem.vote_history.length).toNat = some votes ∧
      get_vote_summary sampleSystem (-1) = .ok {
        iteration := (-1 : Int)
        scores := calculate_scores sampleSystem.scoring_system votes
        sorted_rankings := pySortDesc (calculate_scores sampleSystem.scoring_system votes)
        consensus_reached :=
          (check_consensus sampleSystem
            (calculate_scores sampleSystem.scoring_system votes)).1
        winner := (check_consensus sampleSystem
          (calculate_scores sampleSystem.scoring_system votes)).2
        threshold_score := (max_possible_points sampleSystem : ℚ) *
          sampleSystem.point_threshold
        individual_votes := votes } :=
  vote_summary_negative_index_wraps sampleSystem (-1) (by decide) (by decide) (by decide)

/-! ### Helper lemmas about the stable descending sort -/

theorem filter_orderedInsert (a : String × Int) (m : Int) :
    ∀ l : List (String × Int),
      (List.orderedInsert scoreGE a l).filter (fun q => decide (q.2 = m)) =
        if a.2 = m then a :: l.filter (fun q => decide (q.2 = m))
        else l.filter (fun q => decide (q.2 = m)) := by
  intro l
  induction l with
  | nil =>
      rw [List.orderedInsert]
      by_cases h : a.2 = m
      · rw [if_pos h, @List.filter_cons_of_pos _ _ a [] (decide_eq_true h)]
      · rw [if_neg h, @List.filter_cons_of_neg _ _ a []
          (by rw [decide_eq_false h]; exact Bool.noConfusion)]
  | cons b t ih =>
      rw [List.orderedInsert]
      by_cases hr : scoreGE a b
      · rw [if_pos hr]
        by_cases h : a.2 = m
        · rw [if_pos h, @List.filter_cons_of_pos _ _ a (b :: t) (decide_eq_true h)]
        · rw [if_neg h, @List.filter_cons_of_neg _ _ a (b :: t)
            (by rw [decide_eq_false h]; exact Bool.noConfusion)]
      · rw [if_neg hr]
        have hab : a.2 < b.2 := not_le.mp hr
        by_cases h : a.2 = m
        · rw [if_pos h]
          have hb : b.2 ≠ m := fun hbm => absurd (h ▸ hbm ▸ hab) (lt_irrefl _)
          rw [@List.filter_cons_of_neg _ _ b (List.orderedInsert scoreGE a t)
              (by rw [decide_eq_false hb]; exact Bool.noConfusion),
            @List.filter_cons_of_neg _ _ b t
              (by rw [decide_eq_false hb]; exact Bool.noConfusion),
            ih, if_pos h]
        · rw [if_neg h]
          by_cases hb : b.2 = m
          · rw [@List.filter_cons_of_pos _ _ b (List.orderedInsert scoreGE a t)
                (decide_eq_true hb),
              @List.filter_cons_of_pos _ _ b t (decide_eq_true hb),
              ih, if_neg h]
          · rw [@List.filter_cons_of_neg _ _ b (List.orderedInsert scoreGE a t)
                (by rw [decide_eq_false hb]; exact Bool.noConfusion),
              @List.filter_cons_of_neg _ _ b t
                (by rw [decide_eq_false hb]; exact Bool.noConfusion),
              ih, if_neg h]

theorem filter_pySortDesc (m : Int) :
    ∀ l : List (String × Int),
      (pySortDesc l).filter (fun q => decide (q.2 = m)) =
        l.filter (fun q => decide (q.2 = m)) := by
  intro l
  induction l with
  | nil => rfl
  | cons a t ih =>
      rw [pySortDesc, List.insertionSort, filter_orderedInsert]
      by_cases h : a.2 = m
      · rw [if_pos h, show List.insertionSort scoreGE t = pySortDesc t from rfl, ih,
          @List.filter_cons_of_pos _ _ a t (decide_eq_true h)]
      · rw [if_neg h, show List.insertionSort scoreGE t = pySortDesc t from rfl, ih,
          @List.filter_cons_of_neg _ _ a t
            (by rw [decide_eq_false h]; exact Bool.noConfusion)]

/-- In-range `get_vote_summary`: the populated summary built from round
`i`'s votes. -/
theorem get_vote_summary_ok_of_lt (vs : VotingSystemM) (i : Nat)
    (hi : i < vs.vote_history.length) :
    get_vote_summary vs (i : Int) = .ok {
      iteration := (i : Int)
      scores := calculate_scores vs.scoring_system (vs.vote_history.get ⟨i, hi⟩)
      sorted_rankings :=
        pySortDesc (calculate_scores vs.scoring_system (vs.vote_history.get ⟨i, hi⟩))
      consensus_reached := (check_consensus vs
        (calculate_scores vs.scoring_system (vs.vote_history.get ⟨i, hi⟩))).1
      winner := (check_consensus vs
        (calculate_scores vs.scoring_system (vs.vote_history.get ⟨i, hi⟩))).2
      threshold_score := (max_possible_points vs : ℚ) * vs.point_threshold
      individual_votes := vs.vote_history.get ⟨i, hi⟩ } := by
  have hub : ¬ (vs.vote_history.length : Int) ≤ (i : Int) := by
    omega
  have hplg : pyListGet vs.vote_history (i : Int) =
      some (vs.vote_history.get ⟨i, hi⟩) := by
    rw [pyListGet, if_pos (by positivity : (0 : Int) ≤ (i : Int))]
    rw [Int.toNat_ofNat]
    exact List.get?_eq_some.mpr ⟨hi, rfl⟩
  rw [get_vote_summary, if_neg hub, hplg]

/-- C8 (amended): for every recorded round, `sorted_rankings` lists the
scored participants in descending score order, and participants with equal
scores keep the score map's own iteration order — the order in which they
first earned points in that round's votes — which is the stable tie-break
actually implemented (not the configured participant order). -/
theorem sorted_rankings_descending_and_stable_in_score_map_order
    (vs : VotingSystemM) (i : Nat) (hi : i < vs.vote_history.length) :
    ∃ s, get_vote_summary vs (i : Int) = .ok s ∧
      List.Sorted scoreGE s.sorted_rankings ∧
      ∀ m : Int, s.sorted_rankings.filter (fun q => decide (q.2 = m)) =
        s.scores.filter (fun q => decide (q.2 = m)) :=
  ⟨_, get_vote_summary_ok_of_lt vs i hi,
    List.sorted_insertionSort scoreGE _,
    fun m => filter_pySortDesc m _⟩

/-- Concrete instance of the amended C8: the sample system's tied round. -/
theorem sorted_rankings_descending_and_stable_in_score_map_order_witness :
    ∃ s, get_vote_summary sampleSystem ((0 : Nat) : Int) = .ok s ∧
      List.Sorted scoreGE s.sorted_rankings ∧
      ∀ m : Int, s.sorted_rankings.filter (fun q => decide (q.2 = m)) =
        s.scores.filter (fun q => decide (q.2 = m)) :=
  sorted_rankings_descending_and_stable_in_score_map_order sampleSystem 0 (by decide)

/-- Counterexample to C8 as stated: in the sample round both agents tie at
7, the configured participant order is `A` before `B`, yet
`sorted_rankings` lists `B` first — ties follow the score map's insertion
order (first point earned), not the configured participant order. -/
theorem tie_order_not_configured_participant_order :
    ∃ s, get_vote_summary sampleSystem 0 = .ok s ∧
      s.scores = [("B", 7), ("A", 7)] ∧
      s.sorted_rankings = [("B", 7), ("A", 7)] ∧
      sampleSystem.participants = ["A", "B"] ∧
      s.sorted_rankings ≠ [("A", 7), ("B", 7)] :=
  ⟨_, get_vote_summary_ok_of_lt sampleSystem 0 (by decide),
    by decide, by decide, by decide, by decide⟩

/-! ### Helper lemmas about configuration validation -/

theorem validate_scoring_system_iff (v : List (Nat × Int)) :
    validate_scoring_system v = true ↔ scoringTableWellFormed v := by
  rw [validate_scoring_system, scoringTableWellFormed]
  simp only [Bool.and_eq_true, decide_eq_true_eq, List.all_eq_true]
  constructor
  · rintro ⟨⟨hne, hsort⟩, hpos⟩
    have hperm : (v.map Prod.fst).Perm (List.range' 1 v.length) := by
      rw [← hsort]
      exact (List.perm_insertionSort _ _).symm
    have hnd : (v.map Prod.fst).Nodup := hperm.nodup_iff.mpr (List.nodup_range' 1 _)
    refine ⟨hne, hnd, fun k => ?_, fun p hp => hpos p hp⟩
    rw [hperm.mem_iff, List.mem_range'_1]
    omega
  · rintro ⟨hne, hnd, hmem, hpos⟩
    have hperm : (v.map Prod.fst).Perm (List.range' 1 v.length) := by
      rw [List.perm_ext_iff_of_nodup hnd (List.nodup_range' 1 _)]
      intro k
      rw [hmem k, List.mem_range'_1]
      omega
    refine ⟨⟨hne, ?_⟩, fun p hp => hpos p hp⟩
    refine List.eq_of_perm_of_sorted
      ((List.perm_insertionSort _ _).trans hperm) (List.sorted_insertionSort _ _) ?_
    exact (List.pairwise_lt_range' 1 v.length).imp le_of_lt

/-- C9 (amended): constructing the pydantic `VotingConfig` succeeds iff the
threshold lies in `[0, 1]`, the scoring table is well-formed (keys exactly
`1..K`, positive values), and `1 ≤ min_iterations ≤ max_iterations ≤ 50` —
the field constraints `ge=1` on both iteration counts and `le=50` on
`max_iterations` are part of the validation, so `min_iterations = 0` is
rejected even though the spec's invariant `min_iterations ≥ 0` admits it. -/
theorem voting_config_accepted_iff (t : ℚ) (s : List (Nat × Int)) (mn mx : Int) :
    votingConfigAccepts t s mn mx = true ↔
      (0 ≤ t ∧ t ≤ 1 ∧ scoringTableWellFormed s ∧ 1 ≤ mn ∧ mn ≤ mx ∧ mx ≤ 50) := by
  rw [votingConfigAccepts]
  simp only [Bool.and_eq_true, decide_eq_true_eq, validate_scoring_system_iff]
  constructor
  · rintro ⟨⟨⟨⟨⟨⟨h1, h2⟩, h3⟩, h4⟩, h5⟩, h6⟩, h7⟩
    exact ⟨h1, h2, h3, h4, h7, h6⟩
  · rintro ⟨h1, h2, h3, h4, h5, h6⟩
    exact ⟨⟨⟨⟨⟨⟨h1, h2⟩, h3⟩, h4⟩, by omega⟩, h6⟩, h5⟩

/-- Counterexample to C9 as stated: `min_iterations = 0` satisfies the
claim's acceptance conditions (`threshold ∈ [0,1]`, well-formed table,
`max ≥ min ≥ 0`), yet `VotingConfig` construction rejects it because of the
`ge=1` field constraint. -/
theorem min_iterations_zero_rejected :
    (0 ≤ (3 / 4 : ℚ) ∧ (3 / 4 : ℚ) ≤ 1) ∧
    validate_scoring_system sampleScoring = true ∧
    ((0 : Int) ≤ 0 ∧ (0 : Int) ≤ 10) ∧
    votingConfigAccepts (3 / 4) sampleScoring 0 10 = false := by
  refine ⟨⟨by norm_num, by norm_num⟩, by decide, ⟨le_refl 0, by norm_num⟩, ?_⟩
  rw [Bool.eq_false_iff]
  intro h
  rw [votingConfigAccepts] at h
  simp only [Bool.and_eq_true, decide_eq_true_eq] at h
  exact absurd h.1.1.1.2 (by decide)

/-! ### Helper lemmas about vote collection -/

theorem one_le_length_of_not_blank (s : String) (h : isBlank s = false) :
    1 ≤ s.length := by
  cases s with
  | mk data =>
      cases data with
      | nil => exact Bool.noConfusion h
      | cons c cs => exact Nat.succ_le_succ (Nat.zero_le cs.length)

/-- The `except`-branch default vote of `DebateManager.collect_votes`
validates successfully whenever the participant list is duplicate-free,
made of non-blank names containing the voter, and the iteration index is
non-negative. -/
theorem fallbackVote_ok (name : String) (participants : List String)
    (iteration : Int) (hmem : name ∈ participants) (hnd : participants.Nodup)
    (hne : ∀ n ∈ participants, isBlank n = false) (hit : 0 ≤ iteration) :
    fallbackVote name participants iteration =
      .ok ⟨name, participants, "Error generating vote", iteration⟩ := by
  have hlen : 1 ≤ name.length :=
    one_le_length_of_not_blank name (hne name hmem)
  rw [fallbackVote, mkVote]
  rw [if_neg (by omega : ¬ name.length < 1)]
  rw [if_neg (List.ne_nil_of_mem hmem)]
  rw [if_neg (fun hcon : participants.dedup.length ≠ participants.length =>
    hcon (by rw [List.dedup_eq_self.mpr hnd]))]
  rw [if_neg (fun hany : participants.any (fun p => isBlank p) = true => by
    obtain ⟨x, hx, hp⟩ := List.any_eq_true.mp hany
    rw [hne x hx] at hp
    exact Bool.noConfusion hp)]
  rw [if_neg (by decide : ¬ ("Error generating vote".length < 1))]
  rw [if_neg (not_lt.mpr hit)]
  rw [if_neg (not_not_intro hmem)]

theorem manager_collect_votes_spec (participants : List String)
    (collab : String → CollabVote) (iteration : Int)
    (hnd : participants.Nodup) (hne : ∀ n ∈ participants, isBlank n = false)
    (hit : 0 ≤ iteration) :
    ∀ rest : List String, (∀ n ∈ rest, n ∈ participants) →
      ∃ vs, manager_collect_votes participants collab iteration rest = .ok vs ∧
        vs.length = rest.length ∧
        ∀ j name, rest.get? j = some name →
          ∃ v, vs.get? j = some v ∧
            (mkVote name
                ((generate_vote_result participants (collab name)).1.getD participants)
                ((generate_vote_result participants (collab name)).2.getD
                  "No reasoning provided") iteration = .ok v ∨
              v = ⟨name, participants, "Error generating vote", iteration⟩ ∧
                ∃ e, mkVote name
                  ((generate_vote_result participants (collab name)).1.getD participants)
                  ((generate_vote_result participants (collab name)).2.getD
                    "No reasoning provided") iteration = .error e) := by
  intro rest
  induction rest with
  | nil =>
      intro _
      exact ⟨[], rfl, rfl, fun j name hj => absurd hj (by simp)⟩
  | cons name rest' ih =>
      intro hsub
      have hmem : name ∈ participants := hsub name (List.mem_cons_self _ _)
      obtain ⟨tail, htail, hlen, hspec⟩ :=
        ih (fun n hn => hsub n (List.mem_cons_of_mem _ hn))
      rw [manager_collect_votes]
      cases hattempt : mkVote name
          ((generate_vote_result participants (collab name)).1.getD participants)
          ((generate_vote_result participants (collab name)).2.getD
            "No reasoning provided") iteration with
      | ok v0 =>
          rw [htail]
          refine ⟨v0 :: tail, rfl,
            by rw [List.length_cons, List.length_cons, hlen], ?_⟩
          intro j nm hj
          cases j with
          | zero =>
              have hnm : name = nm := Option.some.inj hj
              exact ⟨v0, rfl, Or.inl (hnm ▸ hattempt)⟩
          | succ k =>
              obtain ⟨v, hv, hcase⟩ := hspec k nm hj
              exact ⟨v, hv, hcase⟩
      | error e =>
          have hfb := fallbackVote_ok name participants iteration hmem hnd hne hit
          rw [hfb, htail]
          refine ⟨⟨name, participants, "Error generating vote", iteration⟩ :: tail,
            rfl, by rw [List.length_cons, List.length_cons, hlen], ?_⟩
          intro j nm hj
          cases j with
          | zero =>
              have hnm : name = nm := Option.some.inj hj
              exact ⟨⟨name, participants, "Error generating vote", iteration⟩, rfl,
                Or.inr ⟨by rw [hnm], e, hnm ▸ hattempt⟩⟩
          | succ k =>
              obtain ⟨v, hv, hcase⟩ := hspec k nm hj
              exact ⟨v, hv, hcase⟩

/-- C6 (amended): in `DebateManager.collect_votes` any vote-construction
failure — unparseable output having been already recovered inside
`generate_vote`, this covers rankings missing the voter or containing
duplicates — is caught and replaced by the fallback vote whose rankings
are the default participant order; the round completes with exactly one
vote per participant and no exception escapes. `DebateApp.collect_votes`,
by contrast, recovers only the unparseable case (through `generate_vote`'s
JSON fallback): a parseable but invalid ranking there raises a validation
error that propagates past the round boundary (see the counterexample). -/
theorem manager_substitutes_fallback_votes (participants : List String)
    (collab : String → CollabVote) (iteration : Int)
    (hnd : participants.Nodup) (hne : ∀ n ∈ participants, isBlank n = false)
    (hit : 0 ≤ iteration) :
    ∃ vs, manager_collect_votes participants collab iteration participants = .ok vs ∧
      vs.length = participants.length ∧
      ∀ j name, participants.get? j = some name →
        ∃ v, vs.get? j = some v ∧
          (mkVote name
              ((generate_vote_result participants (collab name)).1.getD participants)
              ((generate_vote_result participants (collab name)).2.getD
                "No reasoning provided") iteration = .ok v ∨
            v = ⟨name, participants, "Error generating vote", iteration⟩ ∧
              ∃ e, mkVote name
                ((generate_vote_result participants (collab name)).1.getD participants)
                ((generate_vote_result participants (collab name)).2.getD
                  "No reasoning provided") iteration = .error e) :=
  manager_collect_votes_spec participants collab iteration hnd hne hit
    participants (fun _ hn => hn)

/-- Concrete instance of the amended C6: Alice's collaborator omits her
from the rankings; the manager substitutes the fallback vote and the round
still yields two votes. -/
theorem manager_substitutes_fallback_votes_witness :
    ∃ vs, manager_collect_votes ["Alice", "Bob"] ceCollab 0 ["Alice", "Bob"] =
        .ok vs ∧
      vs.length = (["Alice", "Bob"] : List String).length ∧
      ∀ j name, (["Alice", "Bob"] : List String).get? j = some name →
        ∃ v, vs.get? j = some v ∧
          (mkVote name
              ((generate_vote_result ["Alice", "Bob"] (ceCollab name)).1.getD
                ["Alice", "Bob"])
              ((generate_vote_result ["Alice", "Bob"] (ceCollab name)).2.getD
                "No reasoning provided") 0 = .ok v ∨
            v = ⟨name, ["Alice", "Bob"], "Error generating vote", 0⟩ ∧
              ∃ e, mkVote name
                ((generate_vote_result ["Alice", "Bob"] (ceCollab name)).1.getD
                  ["Alice", "Bob"])
                ((generate_vote_result ["Alice", "Bob"] (ceCollab name)).2.getD
                  "No reasoning provided") 0 = .error e) :=
  manager_substitutes_fallback_votes ["Alice", "Bob"] ceCollab 0
    (by decide) (by decide) (by decide)

/-- Counterexample to C6 as stated: the same malformed vote (voter absent
from her own parseable rankings) makes `DebateApp.collect_votes` raise —
the validation error propagates out of the round instead of being replaced
by a fallback vote. -/
theorem malformed_vote_raises_in_debate_app :
    ("Alice" ∉ (["Bob"] : List String)) ∧
    (["Bob"] : List String).Nodup ∧
    app_collect_votes ["Alice", "Bob"] ceCollab 0 ["Alice", "Bob"] =
      .error "Voter must be included in their own rankings" :=
  ⟨by decide, by decide, rfl⟩

end DebateEngine
